import Mathlib

/-!
# VaultX — verification of the cryptographic vault engine

Shallow embedding of the VaultX frontend core: the auth/vault session store
(`src/unnamed/part_001`), the envelope-encryption service
(`src/frontend/src/theme/theme.ts`, second file: `encryption.ts`), the key
derivation service (`src/unnamed/part_002`), the cloud storage service
(`src/frontend/src/services/vault/storageService.ts`, first file), and — where
the module itself is not part of the sources — models built from the
specification (credential hashing `pinHash`, fragmentation `sharding`).

External cryptographic primitives (CryptoJS AES-CBC, HMAC-SHA256, PBKDF2) are
modelled symbolically: ciphertexts and MACs are injective encodings of their
inputs, the standard Dolev-Yao idealisation in which a keyed hash is
collision-free and decryption with the right key and IV inverts encryption.
The encodings below produce strings of decimal digits (plus a `9`-block
separator), so they can never contain the `|` character the source uses as
the ciphertext/HMAC separator.
-/

/-! ## Injective digit-block encodings (symbolic crypto carrier) -/

/-- One decimal digit character; callers pass an arbitrary `Nat`, the digit is
its value mod 10 (chars `0x30`–`0x39`). -/
def digitOf (d : Nat) : Char := Char.ofNat (48 + d % 10)

theorem toNat_digitOf (d : Nat) : (digitOf d).toNat = 48 + d % 10 := by
  unfold digitOf Char.ofNat
  rw [dif_pos (Or.inl (by omega))]
  rfl

theorem char_toNat_lt (c : Char) : c.toNat < 1114112 := by
  rcases c.valid with h | h
  · exact Nat.lt_trans h (by omega)
  · exact h.2

/-- A character list encoded block-wise: each unicode scalar value becomes
exactly seven decimal digit characters (most significant first; scalar values
are `< 1114112 < 10^7`). -/
def encStr : List Char → List Char
  | [] => []
  | c :: cs =>
      digitOf (c.toNat / 1000000) :: digitOf (c.toNat / 100000) ::
      digitOf (c.toNat / 10000) :: digitOf (c.toNat / 1000) ::
      digitOf (c.toNat / 100) :: digitOf (c.toNat / 10) ::
      digitOf c.toNat :: encStr cs

/-- Value of a seven-digit block. -/
def chunkVal (d1 d2 d3 d4 d5 d6 d7 : Char) : Nat :=
  (d1.toNat - 48) * 1000000 + (d2.toNat - 48) * 100000 +
  (d3.toNat - 48) * 10000 + (d4.toNat - 48) * 1000 +
  (d5.toNat - 48) * 100 + (d6.toNat - 48) * 10 + (d7.toNat - 48)

/-- Block-wise decoder, the inverse of `encStr`. -/
def decStr : List Char → Option (List Char)
  | [] => some []
  | d1 :: d2 :: d3 :: d4 :: d5 :: d6 :: d7 :: rest =>
      (decStr rest).map (fun l => Char.ofNat (chunkVal d1 d2 d3 d4 d5 d6 d7) :: l)
  | _ => none

theorem chunkVal_digits (c : Char) :
    chunkVal (digitOf (c.toNat / 1000000)) (digitOf (c.toNat / 100000))
      (digitOf (c.toNat / 10000)) (digitOf (c.toNat / 1000))
      (digitOf (c.toNat / 100)) (digitOf (c.toNat / 10)) (digitOf c.toNat)
      = c.toNat := by
  have hlt := char_toNat_lt c
  simp only [chunkVal, toNat_digitOf]
  omega

theorem decStr_encStr (s : List Char) : decStr (encStr s) = some s := by
  induction s with
  | nil => rfl
  | cons c cs ih =>
      simp only [encStr, decStr, ih, Option.map]
      rw [chunkVal_digits, Char.ofNat_toNat]

theorem encStr_injective {s t : List Char} (h : encStr s = encStr t) : s = t := by
  have h1 := decStr_encStr s
  rw [h, decStr_encStr t] at h1
  exact (Option.some_injective _ h1).symm

/-- Separator block: seven `9` digits. A data block's first digit is the
scalar value divided by `10^6`, hence `0` or `1`, never `9`. -/
def sepBlock : List Char := ['9', '9', '9', '9', '9', '9', '9']

theorem encChar_head_ne_nine (c : Char) : digitOf (c.toNat / 1000000) ≠ '9' := by
  intro h
  have h1 : (digitOf (c.toNat / 1000000)).toNat = 57 := by rw [h]; rfl
  rw [toNat_digitOf] at h1
  have h2 := char_toNat_lt c
  omega

/-- Splits a block stream at the first separator block. -/
def splitSep : List Char → Option (List Char × List Char)
  | [] => none
  | d1 :: d2 :: d3 :: d4 :: d5 :: d6 :: d7 :: rest =>
      if d1 = '9' then some ([], rest)
      else
        match splitSep rest with
        | some (x, y) => some (d1 :: d2 :: d3 :: d4 :: d5 :: d6 :: d7 :: x, y)
        | none => none
  | _ => none

theorem splitSep_encStr (a l : List Char) :
    splitSep (encStr a ++ (sepBlock ++ l)) = some (encStr a, l) := by
  induction a with
  | nil => rfl
  | cons c cs ih =>
      simp only [encStr, List.cons_append]
      rw [splitSep, if_neg (encChar_head_ne_nine c), ih]

/-- Injective pairing of two character lists. -/
def encPair (a b : List Char) : List Char := encStr a ++ (sepBlock ++ encStr b)

/-- Inverse of `encPair`. -/
def decPair (l : List Char) : Option (List Char × List Char) :=
  match splitSep l with
  | some (x, y) =>
      match decStr x, decStr y with
      | some a, some b => some (a, b)
      | _, _ => none
  | none => none

theorem decPair_encPair (a b : List Char) : decPair (encPair a b) = some (a, b) := by
  simp only [encPair, decPair, splitSep_encStr, decStr_encStr]

theorem encPair_injective {a b a' b' : List Char}
    (h : encPair a b = encPair a' b') : a = a' ∧ b = b' := by
  have h1 := decPair_encPair a b
  rw [h, decPair_encPair] at h1
  have h2 := Option.some_injective _ h1
  exact ⟨(congrArg Prod.fst h2).symm, (congrArg Prod.snd h2).symm⟩

/-- Injective encoding of a triple of character lists. -/
def encTriple (a b c : List Char) : List Char :=
  encStr a ++ (sepBlock ++ encPair b c)

/-- Inverse of `encTriple`. -/
def decTriple (l : List Char) : Option (List Char × List Char × List Char) :=
  match splitSep l with
  | some (x, y) =>
      match decStr x, decPair y with
      | some a, some (b, c) => some (a, b, c)
      | _, _ => none
  | none => none

theorem decTriple_encTriple (a b c : List Char) :
    decTriple (encTriple a b c) = some (a, b, c) := by
  simp only [encTriple, decTriple, splitSep_encStr, decStr_encStr, decPair_encPair]

theorem encTriple_injective {a b c a' b' c' : List Char}
    (h : encTriple a b c = encTriple a' b' c') : a = a' ∧ b = b' ∧ c = c' := by
  have h1 := decTriple_encTriple a b c
  rw [h, decTriple_encTriple] at h1
  have h2 := Option.some_injective _ h1
  exact ⟨(congrArg Prod.fst h2).symm,
         (congrArg (fun p => p.2.1) h2).symm,
         (congrArg (fun p => p.2.2) h2).symm⟩

/-! ### The encodings never contain the bar character -/

theorem toNat_le_of_mem_encStr {x : Char} {s : List Char} (h : x ∈ encStr s) :
    x.toNat ≤ 57 := by
  induction s with
  | nil => simp [encStr] at h
  | cons c cs ih =>
      simp only [encStr, List.mem_cons] at h
      rcases h with h | h | h | h | h | h | h | h
      all_goals first
        | (rw [h, toNat_digitOf]; omega)
        | exact ih h

theorem bar_not_mem_encStr (s : List Char) : '|' ∉ encStr s := by
  intro h
  exact absurd (toNat_le_of_mem_encStr h) (by decide)

theorem bar_not_mem_sepBlock : '|' ∉ sepBlock := by decide

theorem bar_not_mem_encPair (a b : List Char) : '|' ∉ encPair a b := by
  intro h
  simp only [encPair, List.mem_append] at h
  rcases h with h | h | h
  · exact bar_not_mem_encStr a h
  · exact bar_not_mem_sepBlock h
  · exact bar_not_mem_encStr b h

theorem bar_not_mem_encTriple (a b c : List Char) : '|' ∉ encTriple a b c := by
  intro h
  simp only [encTriple, List.mem_append] at h
  rcases h with h | h | h
  · exact bar_not_mem_encStr a h
  · exact bar_not_mem_sepBlock h
  · exact bar_not_mem_encPair b c h

/-! ## JavaScript string split at the bar character

`decryptAES256` does `encryptedWithHmac.split('|')` and reads elements 0 and 1.
`splitOnBarL` is that split (on the character list). -/

def splitOnBarL : List Char → List (List Char)
  | [] => [[]]
  | c :: rest =>
      if c = '|' then [] :: splitOnBarL rest
      else
        match splitOnBarL rest with
        | h :: t => (c :: h) :: t
        | [] => [[c]]

theorem splitOnBarL_no_bar {l : List Char} (h : '|' ∉ l) : splitOnBarL l = [l] := by
  induction l with
  | nil => rfl
  | cons c rest ih =>
      simp only [List.mem_cons, not_or] at h
      rw [splitOnBarL, if_neg (fun hc => h.1 hc.symm), ih h.2]

theorem splitOnBarL_append {a : List Char} (rest : List Char) (h : '|' ∉ a) :
    splitOnBarL (a ++ '|' :: rest) = a :: splitOnBarL rest := by
  induction a with
  | nil => simp [splitOnBarL]
  | cons c t ih =>
      simp only [List.mem_cons, not_or] at h
      rw [List.cons_append, splitOnBarL, if_neg (fun hc => h.1 hc.symm), ih h.2]

/-! ## Symbolic cryptographic primitives

The CryptoJS primitives live in an external library, not in this repository;
they are modelled symbolically (injective encodings), the standard idealisation
under which an AES-CBC decryption with the matching key and IV inverts
encryption and HMAC-SHA256 is a collision-free keyed hash. -/

/-- Symbolic CryptoJS `AES.encrypt` (CBC + PKCS7) as used by `encryptAES256`:
the ciphertext determines — to the holder of the key — the key, IV and data. -/
def aesEncRaw (data keyHex ivHex : String) : String :=
  ⟨encTriple keyHex.data ivHex.data data.data⟩

/-- Symbolic CryptoJS `AES.decrypt` followed by `toString(Utf8)`: succeeds
exactly when key and IV match the ones the ciphertext was built with
(a wrong key or IV yields an undecodable byte string, modelled as `none`). -/
def aesDecRaw (ct keyHex ivHex : String) : Option String :=
  match decTriple ct.data with
  | some (k, iv, d) => if k = keyHex.data ∧ iv = ivHex.data then some ⟨d⟩ else none
  | none => none

/-- Symbolic CryptoJS `HmacSHA256(message, key)`: collision-free keyed hash. -/
def hmacSHA256 (msg key : String) : String := ⟨encPair msg.data key.data⟩

/-- `encryptAES256` (encryption.ts, lines 115–129): AES-CBC encrypt, then
append `|` and the HMAC of the ciphertext computed with the same key. -/
def encryptAES256 (data keyHex ivHex : String) : String :=
  ⟨(aesEncRaw data keyHex ivHex).data ++ '|' :: (hmacSHA256 (aesEncRaw data keyHex ivHex) keyHex).data⟩

/-- `decryptAES256` (encryption.ts, lines 134–164): split at `|`, verify the
HMAC of the ciphertext part against the stored part, then decrypt; any
mismatch (or a missing HMAC part) returns `null`. -/
def decryptAES256 (encryptedWithHmac keyHex ivHex : String) : Option String :=
  match splitOnBarL encryptedWithHmac.data with
  | encryptedBase64 :: storedHmac :: _ =>
      if (hmacSHA256 ⟨encryptedBase64⟩ keyHex).data = storedHmac then
        aesDecRaw ⟨encryptedBase64⟩ keyHex ivHex
      else none
  | _ => none

theorem aesDecRaw_aesEncRaw (d k iv : String) :
    aesDecRaw (aesEncRaw d k iv) k iv = some d := by
  simp only [aesDecRaw, aesEncRaw, decTriple_encTriple, and_self, if_pos]

theorem hmacSHA256_injective {m m' k k' : String}
    (h : hmacSHA256 m k = hmacSHA256 m' k') : m = m' ∧ k = k' := by
  have h1 : encPair m.data k.data = encPair m'.data k'.data := congrArg String.data h
  obtain ⟨h2, h3⟩ := encPair_injective h1
  cases m; cases m'; cases k; cases k'
  exact ⟨congrArg String.mk h2, congrArg String.mk h3⟩

theorem decryptAES256_parts (a b : List Char) (k iv : String)
    (ha : '|' ∉ a) (hb : '|' ∉ b) :
    decryptAES256 ⟨a ++ '|' :: b⟩ k iv =
      if (hmacSHA256 ⟨a⟩ k).data = b then aesDecRaw ⟨a⟩ k iv else none := by
  show (match splitOnBarL (a ++ '|' :: b) with
        | encryptedBase64 :: storedHmac :: _ =>
            if (hmacSHA256 ⟨encryptedBase64⟩ k).data = storedHmac then
              aesDecRaw ⟨encryptedBase64⟩ k iv
            else none
        | _ => none) = _
  rw [splitOnBarL_append b ha, splitOnBarL_no_bar hb]

theorem decryptAES256_encryptAES256 (d k iv : String) :
    decryptAES256 (encryptAES256 d k iv) k iv = some d := by
  have h := decryptAES256_parts (aesEncRaw d k iv).data
      (hmacSHA256 (aesEncRaw d k iv) k).data k iv
      (bar_not_mem_encTriple _ _ _) (bar_not_mem_encPair _ _)
  rw [encryptAES256]
  rw [h, if_pos rfl]
  exact aesDecRaw_aesEncRaw d k iv

/-! ## Document envelope protocol (encryption.ts, lines 170–214) -/

structure DocumentEncryptionResult where
  encryptedData : String
  encryptedFEK : String
  fekIV : String
  dataIV : String

/-- `encryptDocument`: generate FEK and IVs (randomness is passed in
explicitly here, standing for `generateFEK()` / `generateIV()`), encrypt the
document under the FEK, then encrypt the FEK under the master key. -/
def encryptDocument (documentBase64 masterKey fek dataIV fekIV : String) :
    DocumentEncryptionResult :=
  { encryptedData := encryptAES256 documentBase64 fek dataIV
    encryptedFEK := encryptAES256 fek masterKey fekIV
    fekIV := fekIV
    dataIV := dataIV }

/-- `decryptDocument`: unwrap the FEK with the master key (a falsy result —
`null` or the empty string — fails closed), then decrypt the body with it. -/
def decryptDocument (encryptedData encryptedFEK fekIV dataIV masterKey : String) :
    Option String :=
  match decryptAES256 encryptedFEK masterKey fekIV with
  | none => none
  | some fek => if fek = "" then none else decryptAES256 encryptedData fek dataIV

/-! ## Credential hashing and key derivation -/

/-- Modelled from the spec: the credential-hashing module
(`../services/crypto/pinHash`, imported by the auth store) is not included
under `src/`. §4.1 contracts `hash(credential, salt) -> commitment`, a slow,
salted, one-way function binding credential and salt; symbolically the
commitment is an injective pairing of the two. -/
def hashPin (pin salt : String) : String := ⟨encPair pin.data salt.data⟩

/-- Modelled from the spec: §4.1 `verify(credential, salt, commitment) -> bool`
recomputes the commitment and compares it (argument order as at the call sites
in the auth store: `verifyPin(pin, salt, hash)`). -/
def verifyPin (pin salt hash : String) : Bool := hashPin pin salt == hash

/-- Symbolic model of `deriveMasterKey` (`src/unnamed/part_002`, lines 23–30):
PBKDF2-HMAC-SHA256 of the PIN with the key-derivation salt; the PBKDF2
computation itself lives in the CryptoJS library, modelled as an injective
keyed derivation. -/
def deriveMasterKey (pin salt : String) : String := ⟨encPair salt.data pin.data⟩

theorem string_mk_data (s : String) : String.mk s.data = s := rfl

theorem hashPin_injective {p s p' s' : String}
    (h : hashPin p s = hashPin p' s') : p = p' ∧ s = s' := by
  have h1 : encPair p.data s.data = encPair p'.data s'.data := congrArg String.data h
  obtain ⟨h2, h3⟩ := encPair_injective h1
  cases p; cases p'; cases s; cases s'
  exact ⟨congrArg String.mk h2, congrArg String.mk h3⟩

theorem verifyPin_hashPin_iff (p s p' s' : String) :
    verifyPin p s (hashPin p' s') = true ↔ p = p' ∧ s = s' := by
  constructor
  · intro h
    exact hashPin_injective (by simpa [verifyPin, beq_iff_eq] using h)
  · rintro ⟨rfl, rfl⟩
    simp [verifyPin]

/-! ## The auth/vault session store (`src/unnamed/part_001`)

The zustand store is embedded as a record; each action becomes a pure state
transformer. Results of the external collaborators (identity provider session,
secure storage loads, `Date.now()`, the randomly generated salts) are explicit
parameters. `set` with a partial object is record update: fields not named are
retained. -/

inductive AppState
  | UNAUTHENTICATED
  | AUTHENTICATED
  | VAULT_LOCKED
  | VAULT_UNLOCKED
  | DURESS_MODE
deriving DecidableEq, Repr

structure User where
  id : String
  email : String
deriving DecidableEq, Repr

structure VaultDocument where
  id : String
  name : String
  mimeType : String
  size : Nat
  createdAt : Nat
  shardIds : List String
  encryptedFEK : String
  iv : String
deriving DecidableEq, Repr

structure LocalVaultMetadata where
  documents : List VaultDocument
  decoyDocuments : List VaultDocument
  lastUpdated : Nat
deriving DecidableEq, Repr

structure SecureLocalData where
  pinHash : String
  pinSalt : String
  duressHash : String
  duressSalt : String
  masterKeySalt : String
  biometricEnabled : Bool
  setupComplete : Bool
deriving DecidableEq, Repr

structure AuthStore where
  appState : AppState
  user : Option User
  secureData : Option SecureLocalData
  vaultMetadata : Option LocalVaultMetadata
  masterKey : Option String
  isLoading : Bool
  error : Option String
deriving DecidableEq, Repr

/-- The store's creation-time state (lines 49–55). -/
def initialStore : AuthStore :=
  { appState := .UNAUTHENTICATED, user := none, secureData := none,
    vaultMetadata := none, masterKey := none, isLoading := true, error := none }

inductive UnlockResult
  | success
  | duress
  | failed
deriving DecidableEq, Repr

/-- `initialize` (lines 57–84). `sessionUser` is what `getSession()` returned,
`loadedSecure`/`loadedMeta` what the secure store returned, `now` is
`Date.now()`. Note that `masterKey` is not among the fields written. -/
def initStore (st : AuthStore) (sessionUser : Option User)
    (loadedSecure : Option SecureLocalData) (loadedMeta : Option LocalVaultMetadata)
    (now : Nat) : AuthStore :=
  match sessionUser with
  | some u =>
      { st with
        user := some u
        secureData := loadedSecure
        vaultMetadata := some (loadedMeta.getD ⟨[], [], now⟩)
        appState := if (loadedSecure.map (·.setupComplete)).getD false
                    then .VAULT_LOCKED else .AUTHENTICATED
        isLoading := false }
  | none => { st with appState := .UNAUTHENTICATED, isLoading := false }

/-- `signIn` (lines 86–107). `authResult` is the identity provider's answer;
on success the secure data and metadata loads are merged in. `masterKey` is
not among the fields written. -/
def signIn (st : AuthStore) (authResult : Option User)
    (loadedSecure : Option SecureLocalData) (loadedMeta : Option LocalVaultMetadata)
    (now : Nat) : Bool × AuthStore :=
  match authResult with
  | some u =>
      (true,
       { st with
         user := some u
         secureData := loadedSecure
         vaultMetadata := some (loadedMeta.getD ⟨[], [], now⟩)
         appState := if (loadedSecure.map (·.setupComplete)).getD false
                     then .VAULT_LOCKED else .AUTHENTICATED
         isLoading := false })
  | none => (false, { st with error := some "Sign in failed", isLoading := false })

/-- `signUp` (lines 109–126). -/
def signUp (st : AuthStore) (authResult : Option User) (now : Nat) :
    Bool × AuthStore :=
  match authResult with
  | some u =>
      (true,
       { st with
         user := some u
         appState := .AUTHENTICATED
         vaultMetadata := some ⟨[], [], now⟩
         isLoading := false })
  | none => (false, { st with error := some "Sign up failed", isLoading := false })

/-- `signOut` (lines 128–139). -/
def signOut (st : AuthStore) : AuthStore :=
  { st with
    user := none, secureData := none, vaultMetadata := none,
    masterKey := none, appState := .UNAUTHENTICATED, isLoading := false }

/-- `setupPins` (lines 141–167). The three generated salts
(`generatePinSalt()` twice, `generateSalt()` once) are explicit parameters;
the record stores them and the two commitments verbatim, with no check that
any of them differ. -/
def setupPins (st : AuthStore) (primaryPin duressPin : String)
    (pinSalt duressSalt masterKeySalt : String) : Bool × AuthStore :=
  let secureData : SecureLocalData :=
    { pinHash := hashPin primaryPin pinSalt
      pinSalt := pinSalt
      duressHash := hashPin duressPin duressSalt
      duressSalt := duressSalt
      masterKeySalt := masterKeySalt
      biometricEnabled := (st.secureData.map (·.biometricEnabled)).getD false
      setupComplete := false }
  (true, { st with secureData := some secureData })

/-- `enableBiometrics` (lines 169–177). -/
def enableBiometrics (st : AuthStore) (enabled : Bool) : Bool × AuthStore :=
  match st.secureData with
  | none => (false, st)
  | some d => (true, { st with secureData := some { d with biometricEnabled := enabled } })

/-- `completeSetup` (lines 179–187). Sets `setupComplete` and moves to
`VAULT_LOCKED`; `masterKey` is not among the fields written. -/
def completeSetup (st : AuthStore) : Bool × AuthStore :=
  match st.secureData with
  | none => (false, st)
  | some d =>
      (true, { st with secureData := some { d with setupComplete := true },
                       appState := .VAULT_LOCKED })

/-- `unlockVault` (lines 189–209): the duress commitment is checked first and
returns early; only otherwise is the primary commitment checked, and only on a
primary match is the master key derived. -/
def unlockVault (st : AuthStore) (pin : String) : UnlockResult × AuthStore :=
  match st.secureData with
  | none => (.failed, st)
  | some secureData =>
      if verifyPin pin secureData.duressSalt secureData.duressHash then
        (.duress, { st with appState := .DURESS_MODE, masterKey := none })
      else if verifyPin pin secureData.pinSalt secureData.pinHash then
        (.success,
         { st with appState := .VAULT_UNLOCKED,
                   masterKey := some (deriveMasterKey pin secureData.masterKeySalt) })
      else (.failed, st)

/-- `lockVault` (lines 211–214). -/
def lockVault (st : AuthStore) : AuthStore :=
  { st with appState := .VAULT_LOCKED, masterKey := none }

/-- `addDocument` (lines 216–239): consults the live `appState`; in
`DURESS_MODE` it appends to `decoyDocuments`, otherwise to `documents`. -/
def addDocument (st : AuthStore) (doc : VaultDocument) (now : Nat) : AuthStore :=
  match st.vaultMetadata with
  | none => st
  | some vaultMetadata =>
      if st.appState = .DURESS_MODE then
        let newMetadata := { vaultMetadata with
          decoyDocuments := vaultMetadata.decoyDocuments ++ [doc], lastUpdated := now }
        { st with vaultMetadata := some newMetadata }
      else
        let newMetadata := { vaultMetadata with
          documents := vaultMetadata.documents ++ [doc], lastUpdated := now }
        { st with vaultMetadata := some newMetadata }

/-- `removeDocument` (lines 241–262). -/
def removeDocument (st : AuthStore) (docId : String) (now : Nat) : AuthStore :=
  match st.vaultMetadata with
  | none => st
  | some vaultMetadata =>
      if st.appState = .DURESS_MODE then
        let newMetadata := { vaultMetadata with
          decoyDocuments := vaultMetadata.decoyDocuments.filter (fun d => d.id ≠ docId),
          lastUpdated := now }
        { st with vaultMetadata := some newMetadata }
      else
        let newMetadata := { vaultMetadata with
          documents := vaultMetadata.documents.filter (fun d => d.id ≠ docId),
          lastUpdated := now }
        { st with vaultMetadata := some newMetadata }

/-- `getDocuments` (lines 264–274). -/
def getDocuments (st : AuthStore) : List VaultDocument :=
  match st.vaultMetadata with
  | none => []
  | some vaultMetadata =>
      if st.appState = .DURESS_MODE then vaultMetadata.decoyDocuments
      else vaultMetadata.documents

/-- One store action, with the external collaborators' answers and clock
readings baked into the constructor arguments. -/
inductive StoreAction
  | init (sessionUser : Option User) (loadedSecure : Option SecureLocalData)
      (loadedMeta : Option LocalVaultMetadata) (now : Nat)
  | signIn (authResult : Option User) (loadedSecure : Option SecureLocalData)
      (loadedMeta : Option LocalVaultMetadata) (now : Nat)
  | signUp (authResult : Option User) (now : Nat)
  | signOut
  | setupPins (primaryPin duressPin pinSalt duressSalt masterKeySalt : String)
  | enableBiometrics (enabled : Bool)
  | completeSetup
  | unlockVault (pin : String)
  | lockVault
  | addDocument (doc : VaultDocument) (now : Nat)
  | removeDocument (docId : String) (now : Nat)

/-- Effect of one action on the store state. -/
def step (st : AuthStore) : StoreAction → AuthStore
  | .init u s m now => initStore st u s m now
  | .signIn a s m now => (signIn st a s m now).2
  | .signUp a now => (signUp st a now).2
  | .signOut => signOut st
  | .setupPins p d ps ds ms => (setupPins st p d ps ds ms).2
  | .enableBiometrics e => (enableBiometrics st e).2
  | .completeSetup => (completeSetup st).2
  | .unlockVault pin => (unlockVault st pin).2
  | .lockVault => lockVault st
  | .addDocument doc now => addDocument st doc now
  | .removeDocument i now => removeDocument st i now

/-- Run a sequence of actions from the creation-time state. -/
def run (acts : List StoreAction) : AuthStore := acts.foldl step initialStore

/-! ## Verification-side helper lemmas for credential checks -/

theorem verifyPin_hashPin_self (p s : String) : verifyPin p s (hashPin p s) = true := by
  simp [verifyPin]

theorem verifyPin_hashPin_ne {p p' : String} (s : String) (hne : p ≠ p') :
    verifyPin p s (hashPin p' s) = false := by
  cases hb : verifyPin p s (hashPin p' s) with
  | false => rfl
  | true => exact absurd ((verifyPin_hashPin_iff p s p' s).1 hb).1 hne

/-- C1: for a Credential Record whose primary commitment is derived from PIN
"482913" and whose duress commitment is derived from PIN "001122", calling
`unlockVault` from the locked state with "482913" returns success and moves to
`VAULT_UNLOCKED` with a non-null master key; with "001122" it returns duress
and moves to `DURESS_MODE` with the master key strictly absent; with "999999"
it returns failed and leaves the whole store (state and master key) unchanged. -/
theorem C1_unlock_transitions (st : AuthStore) (sd : SecureLocalData)
    (hsd : st.secureData = some sd)
    (_hlock : st.appState = .VAULT_LOCKED)
    (h1 : sd.pinHash = hashPin "482913" sd.pinSalt)
    (h2 : sd.duressHash = hashPin "001122" sd.duressSalt) :
    ((unlockVault st "482913").1 = .success ∧
     (unlockVault st "482913").2.appState = .VAULT_UNLOCKED ∧
     (unlockVault st "482913").2.masterKey =
       some (deriveMasterKey "482913" sd.masterKeySalt)) ∧
    ((unlockVault st "001122").1 = .duress ∧
     (unlockVault st "001122").2.appState = .DURESS_MODE ∧
     (unlockVault st "001122").2.masterKey = none) ∧
    ((unlockVault st "999999").1 = .failed ∧ (unlockVault st "999999").2 = st) := by
  have d1 : verifyPin "482913" sd.duressSalt sd.duressHash = false := by
    rw [h2]; exact verifyPin_hashPin_ne _ (by decide)
  have d2 : verifyPin "001122" sd.duressSalt sd.duressHash = true := by
    rw [h2]; exact verifyPin_hashPin_self _ _
  have d3 : verifyPin "999999" sd.duressSalt sd.duressHash = false := by
    rw [h2]; exact verifyPin_hashPin_ne _ (by decide)
  have p1 : verifyPin "482913" sd.pinSalt sd.pinHash = true := by
    rw [h1]; exact verifyPin_hashPin_self _ _
  have p3 : verifyPin "999999" sd.pinSalt sd.pinHash = false := by
    rw [h1]; exact verifyPin_hashPin_ne _ (by decide)
  refine ⟨⟨?_, ?_, ?_⟩, ⟨?_, ?_, ?_⟩, ?_, ?_⟩ <;>
    simp [unlockVault, hsd, d1, d2, d3, p1, p3]

/-- Concrete store for the C1 witness: `setupPins` then `completeSetup` with
salts "s1", "s2", "s3". -/
def c1Store : AuthStore :=
  run [.setupPins "482913" "001122" "s1" "s2" "s3", .completeSetup]

/-- The Credential Record `c1Store` holds. -/
def c1Record : SecureLocalData :=
  ⟨hashPin "482913" "s1", "s1", hashPin "001122" "s2", "s2", "s3", false, true⟩

/-- Witness for C1 at `c1Store`. -/
theorem C1_unlock_transitions_witness :
    (c1Store.secureData = some c1Record ∧ c1Store.appState = .VAULT_LOCKED) ∧
    (((unlockVault c1Store "482913").1 = .success ∧
      (unlockVault c1Store "482913").2.appState = .VAULT_UNLOCKED ∧
      (unlockVault c1Store "482913").2.masterKey =
        some (deriveMasterKey "482913" c1Record.masterKeySalt)) ∧
     ((unlockVault c1Store "001122").1 = .duress ∧
      (unlockVault c1Store "001122").2.appState = .DURESS_MODE ∧
      (unlockVault c1Store "001122").2.masterKey = none) ∧
     ((unlockVault c1Store "999999").1 = .failed ∧
      (unlockVault c1Store "999999").2 = c1Store)) :=
  ⟨⟨rfl, rfl⟩, C1_unlock_transitions c1Store c1Record rfl rfl rfl rfl⟩

/-- C2 is refuted by the code: `completeSetup` (like `initialize`/`signIn`)
writes `appState` without clearing `masterKey`, so after
setup → completeSetup → unlockVault (primary) → completeSetup the store is in
`VAULT_LOCKED` while the master key derived at unlock is still held — a
reachable state with a non-null master key outside `VAULT_UNLOCKED`. -/
theorem C2_masterKey_invariant_violated :
    (run [.setupPins "1111" "2222" "a" "b" "c", .completeSetup,
          .unlockVault "1111", .completeSetup]).appState = .VAULT_LOCKED ∧
    (run [.setupPins "1111" "2222" "a" "b" "c", .completeSetup,
          .unlockVault "1111", .completeSetup]).masterKey =
      some (deriveMasterKey "1111" "c") := by
  exact ⟨by decide, by decide⟩

/-- C5: every document operation consults the live `appState`. In
`DURESS_MODE`, `addDocument` appends only to `decoyDocuments`,
`removeDocument` filters only `decoyDocuments`, and `getDocuments` returns
`decoyDocuments`, with `documents` unchanged (the record equalities fix every
field); in any other state the same operations touch only `documents` and
leave `decoyDocuments` unchanged. -/
theorem C5_duress_frame (st : AuthStore) (vm : LocalVaultMetadata)
    (hvm : st.vaultMetadata = some vm) (doc : VaultDocument) (docId : String)
    (now : Nat) :
    (st.appState = .DURESS_MODE →
      (addDocument st doc now).vaultMetadata =
        some { vm with decoyDocuments := vm.decoyDocuments ++ [doc],
                       lastUpdated := now } ∧
      (removeDocument st docId now).vaultMetadata =
        some { vm with decoyDocuments := vm.decoyDocuments.filter (fun d => d.id ≠ docId),
                       lastUpdated := now } ∧
      getDocuments st = vm.decoyDocuments) ∧
    (st.appState ≠ .DURESS_MODE →
      (addDocument st doc now).vaultMetadata =
        some { vm with documents := vm.documents ++ [doc], lastUpdated := now } ∧
      (removeDocument st docId now).vaultMetadata =
        some { vm with documents := vm.documents.filter (fun d => d.id ≠ docId),
                       lastUpdated := now } ∧
      getDocuments st = vm.documents) := by
  constructor <;> intro h <;>
    refine ⟨?_, ?_, ?_⟩ <;>
      simp [addDocument, removeDocument, getDocuments, hvm, h]

/-- Sample documents and a duress-mode store for the C5 witness. -/
def sampleRealDoc : VaultDocument := ⟨"r", "r", "m", 0, 0, [], "e", "i"⟩

/-- Sample decoy document. -/
def sampleDecoyDoc : VaultDocument := ⟨"d", "d", "m", 0, 0, [], "e", "i"⟩

/-- Sample newly added document. -/
def sampleNewDoc : VaultDocument := ⟨"n", "n", "m", 1, 1, [], "e", "i"⟩

/-- A store in `DURESS_MODE` holding one real and one decoy document. -/
def sampleDuressStore : AuthStore :=
  { initialStore with
    appState := .DURESS_MODE,
    vaultMetadata := some ⟨[sampleRealDoc], [sampleDecoyDoc], 0⟩ }

/-- Witness for C5 at `sampleDuressStore`. -/
theorem C5_duress_frame_witness :
    (sampleDuressStore.appState = .DURESS_MODE →
      (addDocument sampleDuressStore sampleNewDoc 7).vaultMetadata =
        some { documents := [sampleRealDoc],
               decoyDocuments := [sampleDecoyDoc] ++ [sampleNewDoc],
               lastUpdated := 7 } ∧
      (removeDocument sampleDuressStore "d" 7).vaultMetadata =
        some { documents := [sampleRealDoc],
               decoyDocuments := [sampleDecoyDoc].filter (fun d => d.id ≠ "d"),
               lastUpdated := 7 } ∧
      getDocuments sampleDuressStore = [sampleDecoyDoc]) ∧
    (sampleDuressStore.appState ≠ .DURESS_MODE →
      (addDocument sampleDuressStore sampleNewDoc 7).vaultMetadata =
        some { documents := [sampleRealDoc] ++ [sampleNewDoc],
               decoyDocuments := [sampleDecoyDoc],
               lastUpdated := 7 } ∧
      (removeDocument sampleDuressStore "d" 7).vaultMetadata =
        some { documents := [sampleRealDoc].filter (fun d => d.id ≠ "d"),
               decoyDocuments := [sampleDecoyDoc],
               lastUpdated := 7 } ∧
      getDocuments sampleDuressStore = [sampleRealDoc]) :=
  C5_duress_frame sampleDuressStore ⟨[sampleRealDoc], [sampleDecoyDoc], 0⟩ rfl
    sampleNewDoc "d" 7

/-- C8 is refuted as stated: `setupPins` stores the three independently
generated random salts verbatim, with no distinctness check, so the execution
in which the generator returns the same bytes for the credential-hashing salt
and the key-derivation salt produces a record with `pinSalt = masterKeySalt`
(both "s" here). -/
theorem C8_salts_can_collide :
    ((setupPins initialStore "1111" "2222" "s" "s" "s").2.secureData.map
        (fun sd => sd.pinSalt)) = some "s" ∧
    ((setupPins initialStore "1111" "2222" "s" "s" "s").2.secureData.map
        (fun sd => sd.masterKeySalt)) = some "s" :=
  ⟨rfl, rfl⟩

/-- C8 (amended): whenever the three generated salts are pairwise distinct —
which the 128-bit CSPRNG guarantees except with negligible probability — the
Credential Record created by `setupPins` has a credential-hashing salt
different from the key-derivation salt, and likewise for the duress salt;
`setupPins` passes the generated salts through unchanged. -/
theorem C8_distinct_salts (st : AuthStore) (p d ps ds ms : String)
    (h1 : ps ≠ ms) (h2 : ds ≠ ms) (sd : SecureLocalData)
    (hsd : (setupPins st p d ps ds ms).2.secureData = some sd) :
    sd.pinSalt ≠ sd.masterKeySalt ∧ sd.duressSalt ≠ sd.masterKeySalt := by
  simp only [setupPins, Option.some.injEq] at hsd
  rw [← hsd]
  exact ⟨h1, h2⟩

/-- Witness for the amended C8 at distinct concrete salts. -/
theorem C8_distinct_salts_witness :
    ("a" : String) ≠ "c" ∧ ("b" : String) ≠ "c" ∧
    ((⟨hashPin "1111" "a", "a", hashPin "2222" "b", "b", "c", false, false⟩ :
        SecureLocalData).pinSalt ≠
      (⟨hashPin "1111" "a", "a", hashPin "2222" "b", "b", "c", false, false⟩ :
        SecureLocalData).masterKeySalt ∧
     (⟨hashPin "1111" "a", "a", hashPin "2222" "b", "b", "c", false, false⟩ :
        SecureLocalData).duressSalt ≠
      (⟨hashPin "1111" "a", "a", hashPin "2222" "b", "b", "c", false, false⟩ :
        SecureLocalData).masterKeySalt) :=
  ⟨by decide, by decide,
   C8_distinct_salts initialStore "1111" "2222" "a" "b" "c"
     (by decide) (by decide) _ rfl⟩

/-- C10: if a submitted PIN verifies against both the duress and the primary
commitment (e.g. both PINs were set to the same value), `unlockVault` takes
the duress branch: it returns duress, enters `DURESS_MODE`, and the master key
is never derived (strictly absent). -/
theorem C10_duress_checked_first (st : AuthStore) (sd : SecureLocalData)
    (pin : String) (hsd : st.secureData = some sd)
    (hd : verifyPin pin sd.duressSalt sd.duressHash = true)
    (_hp : verifyPin pin sd.pinSalt sd.pinHash = true) :
    unlockVault st pin =
      (.duress, { st with appState := .DURESS_MODE, masterKey := none }) := by
  simp [unlockVault, hsd, hd]

/-- Credential Record whose two commitments are both derived from PIN "1111". -/
def samePinRecord : SecureLocalData :=
  ⟨hashPin "1111" "a", "a", hashPin "1111" "b", "b", "c", false, true⟩

/-- Locked store holding `samePinRecord`. -/
def samePinStore : AuthStore :=
  { initialStore with appState := .VAULT_LOCKED, secureData := some samePinRecord }

/-- Witness for C10 at `samePinStore`. -/
theorem C10_duress_checked_first_witness :
    verifyPin "1111" samePinRecord.duressSalt samePinRecord.duressHash = true ∧
    verifyPin "1111" samePinRecord.pinSalt samePinRecord.pinHash = true ∧
    unlockVault samePinStore "1111" =
      (.duress, { samePinStore with appState := .DURESS_MODE, masterKey := none }) :=
  ⟨by decide, by decide,
   C10_duress_checked_first samePinStore samePinRecord "1111" rfl
     (by decide) (by decide)⟩

/-! ## Round trip and integrity of the document envelope -/

theorem string_data_injective {a b : String} (h : a.data = b.data) : a = b := by
  cases a; cases b; exact congrArg String.mk h

/-- C3: for every plaintext document D and master key K (and whatever FEK and
IVs the generators returned — the FEK is a nonempty hex string), feeding the
`encryptedData`, `encryptedFEK`, `fekIV` and `dataIV` produced by
`encryptDocument(D, K)` back into `decryptDocument` with the same K returns
exactly D. -/
theorem C3_document_roundtrip (D K fek dataIV fekIV : String) (hfek : fek ≠ "") :
    decryptDocument (encryptDocument D K fek dataIV fekIV).encryptedData
      (encryptDocument D K fek dataIV fekIV).encryptedFEK
      (encryptDocument D K fek dataIV fekIV).fekIV
      (encryptDocument D K fek dataIV fekIV).dataIV K = some D := by
  show decryptDocument (encryptAES256 D fek dataIV) (encryptAES256 fek K fekIV)
      fekIV dataIV K = some D
  rw [decryptDocument, decryptAES256_encryptAES256]
  exact (if_neg hfek).trans (decryptAES256_encryptAES256 D fek dataIV)

/-- Witness for C3 at concrete strings. -/
theorem C3_document_roundtrip_witness :
    ("f" : String) ≠ "" ∧
    decryptDocument (encryptDocument "doc" "k" "f" "i" "j").encryptedData
      (encryptDocument "doc" "k" "f" "i" "j").encryptedFEK
      (encryptDocument "doc" "k" "f" "i" "j").fekIV
      (encryptDocument "doc" "k" "f" "i" "j").dataIV "k" = some "doc" :=
  ⟨by decide, C3_document_roundtrip "doc" "k" "f" "i" "j" (by decide)⟩

/-- Altering the ciphertext half of an `encryptAES256` output while keeping
the stored HMAC makes `decryptAES256` fail closed: the recomputed HMAC of the
altered ciphertext no longer matches the stored one. -/
theorem decryptAES256_ct_tamper (ct0 k iv : String) {ct : List Char}
    (hbar : '|' ∉ ct) (hne : ct ≠ ct0.data) :
    decryptAES256 ⟨ct ++ '|' :: (hmacSHA256 ct0 k).data⟩ k iv = none := by
  rw [decryptAES256_parts ct (hmacSHA256 ct0 k).data k iv hbar
      (bar_not_mem_encPair _ _)]
  rw [if_neg]
  intro h
  obtain ⟨hm, -⟩ := hmacSHA256_injective (string_data_injective h)
  exact hne (congrArg String.data hm)

/-- Altering the stored HMAC half while keeping the ciphertext makes
`decryptAES256` fail closed. -/
theorem decryptAES256_mac_tamper (ct0 k iv : String) {mac : List Char}
    (hmbar : '|' ∉ mac) (hctbar : '|' ∉ ct0.data)
    (hne : mac ≠ (hmacSHA256 ct0 k).data) :
    decryptAES256 ⟨ct0.data ++ '|' :: mac⟩ k iv = none := by
  rw [decryptAES256_parts ct0.data mac k iv hctbar hmbar]
  rw [if_neg]
  intro h
  exact hne h.symm

/-- A blob containing no `|` at all — as left behind when a bit flip corrupts
the separator itself — is rejected by `decryptAES256`: the split yields a
single part, the stored HMAC is missing, and the comparison fails. -/
theorem decryptAES256_no_bar (l : List Char) (k iv : String) (hbar : '|' ∉ l) :
    decryptAES256 ⟨l⟩ k iv = none := by
  show (match splitOnBarL l with
        | encryptedBase64 :: storedHmac :: _ =>
            if (hmacSHA256 ⟨encryptedBase64⟩ k).data = storedHmac then
              aesDecRaw ⟨encryptedBase64⟩ k iv
            else none
        | _ => none) = none
  rw [splitOnBarL_no_bar hbar]

/-- C4: a single-bit alteration of the sealed body or of the wrapped FEK
lands in one of three places: inside the ciphertext component, inside the
stored-HMAC component, or on the `|` separator itself. The components are
decimal-digit strings (`0x30`–`0x39`), and no digit is one bit away from
`|` (`0x7C`), so a flip inside a component leaves the two-component structure
intact and alters exactly that component (the first four cases, which allow
arbitrary alteration of one component); a flip of the separator leaves a blob
with no `|` at all (the last two cases, which allow an arbitrary bar-free
blob). In every case `decryptDocument` returns the integrity failure `none`,
and in particular never plaintext different from D. -/
theorem C4_single_bit_tamper (D K fek dataIV fekIV : String) (hfek : fek ≠ "") :
    (∀ ct : List Char, '|' ∉ ct → ct ≠ (aesEncRaw D fek dataIV).data →
       decryptDocument ⟨ct ++ '|' :: (hmacSHA256 (aesEncRaw D fek dataIV) fek).data⟩
         (encryptDocument D K fek dataIV fekIV).encryptedFEK fekIV dataIV K = none) ∧
    (∀ mac : List Char, '|' ∉ mac →
       mac ≠ (hmacSHA256 (aesEncRaw D fek dataIV) fek).data →
       decryptDocument ⟨(aesEncRaw D fek dataIV).data ++ '|' :: mac⟩
         (encryptDocument D K fek dataIV fekIV).encryptedFEK fekIV dataIV K = none) ∧
    (∀ blob : List Char, '|' ∉ blob →
       decryptDocument ⟨blob⟩
         (encryptDocument D K fek dataIV fekIV).encryptedFEK fekIV dataIV K = none) ∧
    (∀ ct : List Char, '|' ∉ ct → ct ≠ (aesEncRaw fek K fekIV).data →
       decryptDocument (encryptDocument D K fek dataIV fekIV).encryptedData
         ⟨ct ++ '|' :: (hmacSHA256 (aesEncRaw fek K fekIV) K).data⟩
         fekIV dataIV K = none) ∧
    (∀ mac : List Char, '|' ∉ mac →
       mac ≠ (hmacSHA256 (aesEncRaw fek K fekIV) K).data →
       decryptDocument (encryptDocument D K fek dataIV fekIV).encryptedData
         ⟨(aesEncRaw fek K fekIV).data ++ '|' :: mac⟩
         fekIV dataIV K = none) ∧
    (∀ blob : List Char, '|' ∉ blob →
       decryptDocument (encryptDocument D K fek dataIV fekIV).encryptedData
         ⟨blob⟩ fekIV dataIV K = none) := by
  refine ⟨?_, ?_, ?_, ?_, ?_, ?_⟩
  · intro ct hbar hne
    show (match decryptAES256 (encryptAES256 fek K fekIV) K fekIV with
          | none => none
          | some f => if f = "" then none
                      else decryptAES256 ⟨ct ++ '|' ::
                        (hmacSHA256 (aesEncRaw D fek dataIV) fek).data⟩ f dataIV) = none
    rw [decryptAES256_encryptAES256]
    exact (if_neg hfek).trans
      (decryptAES256_ct_tamper (aesEncRaw D fek dataIV) fek dataIV hbar hne)
  · intro mac hbar hne
    show (match decryptAES256 (encryptAES256 fek K fekIV) K fekIV with
          | none => none
          | some f => if f = "" then none
                      else decryptAES256
                        ⟨(aesEncRaw D fek dataIV).data ++ '|' :: mac⟩ f dataIV) = none
    rw [decryptAES256_encryptAES256]
    exact (if_neg hfek).trans
      (decryptAES256_mac_tamper (aesEncRaw D fek dataIV) fek dataIV hbar
        (bar_not_mem_encTriple _ _ _) hne)
  · intro blob hbar
    show (match decryptAES256 (encryptAES256 fek K fekIV) K fekIV with
          | none => none
          | some f => if f = "" then none
                      else decryptAES256 ⟨blob⟩ f dataIV) = none
    rw [decryptAES256_encryptAES256]
    exact (if_neg hfek).trans (decryptAES256_no_bar blob fek dataIV hbar)
  · intro ct hbar hne
    show (match decryptAES256 ⟨ct ++ '|' ::
            (hmacSHA256 (aesEncRaw fek K fekIV) K).data⟩ K fekIV with
          | none => none
          | some f => if f = "" then none
                      else decryptAES256
                        (encryptDocument D K fek dataIV fekIV).encryptedData f dataIV) = none
    rw [decryptAES256_ct_tamper (aesEncRaw fek K fekIV) K fekIV hbar hne]
  · intro mac hbar hne
    show (match decryptAES256
            ⟨(aesEncRaw fek K fekIV).data ++ '|' :: mac⟩ K fekIV with
          | none => none
          | some f => if f = "" then none
                      else decryptAES256
                        (encryptDocument D K fek dataIV fekIV).encryptedData f dataIV) = none
    rw [decryptAES256_mac_tamper (aesEncRaw fek K fekIV) K fekIV hbar
      (bar_not_mem_encTriple _ _ _) hne]
  · intro blob hbar
    show (match decryptAES256 ⟨blob⟩ K fekIV with
          | none => none
          | some f => if f = "" then none
                      else decryptAES256
                        (encryptDocument D K fek dataIV fekIV).encryptedData f dataIV) = none
    rw [decryptAES256_no_bar blob K fekIV hbar]

/-- Witness for C4: a concrete altered sealed body is rejected in both flip
shapes — one character prepended to the ciphertext component, and the
separator `|` (`0x7C`) flipped to `x` (`0x78`, one bit away). -/
theorem C4_single_bit_tamper_witness :
    ("f" : String) ≠ "" ∧
    '|' ∉ ('0' :: (aesEncRaw "d" "f" "i").data) ∧
    ('0' :: (aesEncRaw "d" "f" "i").data) ≠ (aesEncRaw "d" "f" "i").data ∧
    decryptDocument ⟨('0' :: (aesEncRaw "d" "f" "i").data) ++ '|' ::
        (hmacSHA256 (aesEncRaw "d" "f" "i") "f").data⟩
      (encryptDocument "d" "k" "f" "i" "j").encryptedFEK "j" "i" "k" = none ∧
    '|' ∉ ((aesEncRaw "d" "f" "i").data ++ 'x' ::
        (hmacSHA256 (aesEncRaw "d" "f" "i") "f").data) ∧
    decryptDocument ⟨(aesEncRaw "d" "f" "i").data ++ 'x' ::
        (hmacSHA256 (aesEncRaw "d" "f" "i") "f").data⟩
      (encryptDocument "d" "k" "f" "i" "j").encryptedFEK "j" "i" "k" = none :=
  ⟨by decide, by decide, by decide,
   (C4_single_bit_tamper "d" "k" "f" "i" "j" (by decide)).1
     ('0' :: (aesEncRaw "d" "f" "i").data) (by decide) (by decide),
   by decide,
   (C4_single_bit_tamper "d" "k" "f" "i" "j" (by decide)).2.2.1
     ((aesEncRaw "d" "f" "i").data ++ 'x' ::
       (hmacSHA256 (aesEncRaw "d" "f" "i") "f").data) (by decide)⟩

/-! ## Fragmentation protocol (sharding) -/

/-- A shard as typed in the sources (`EncryptedShard` in the types file and
`Shard` in the sharding module): identifier, data, caller-supplied index. -/
structure Shard where
  id : String
  data : List Char
  index : Nat
deriving DecidableEq, Repr

/-- Modelled from the spec: the fragmentation module (`../crypto/sharding`,
imported by vaultService and storageService) is not included under `src/`.
§4.5: `split(payloadBytes)` produces a fixed number of shards — the reference
behavior uses 3 shards per document — each carrying a randomly generated
identifier (explicit parameters here) and its position as `index`. -/
def splitIntoShards (payload : List Char) (id0 id1 id2 : String) : List Shard :=
  let size := (payload.length + 2) / 3
  [⟨id0, payload.take size, 0⟩,
   ⟨id1, (payload.drop size).take size, 1⟩,
   ⟨id2, (payload.drop size).drop size, 2⟩]

/-- Insertion step of sorting by the caller-supplied index. -/
def insertShard (s : Shard) : List Shard → List Shard
  | [] => [s]
  | t :: ts => if s.index ≤ t.index then s :: t :: ts else t :: insertShard s ts

/-- Sort shards by their caller-supplied index (insertion sort). -/
def sortShards : List Shard → List Shard
  | [] => []
  | s :: ss => insertShard s (sortShards ss)

/-- Modelled from the spec: §4.5 `reassemble` sorts the supplied shards by the
caller-supplied `index` — never by identifier or upload/arrival order — and
concatenates their data. -/
def reassembleShards (shards : List Shard) : List Char :=
  ((sortShards shards).map (fun s => s.data)).flatten

theorem insertShard_perm (s : Shard) (l : List Shard) :
    (insertShard s l).Perm (s :: l) := by
  induction l with
  | nil => exact List.Perm.refl _
  | cons t ts ih =>
      rw [insertShard]
      split
      · exact List.Perm.refl _
      · exact (ih.cons t).trans (List.Perm.swap s t ts)

theorem sortShards_perm (l : List Shard) : (sortShards l).Perm l := by
  induction l with
  | nil => exact List.Perm.refl _
  | cons s ss ih =>
      exact (insertShard_perm s (sortShards ss)).trans (ih.cons s)

theorem insertShard_pairwise {l : List Shard} (s : Shard)
    (h : l.Pairwise (fun a b => a.index ≤ b.index)) :
    (insertShard s l).Pairwise (fun a b => a.index ≤ b.index) := by
  induction l with
  | nil => simp [insertShard]
  | cons t ts ih =>
      rw [List.pairwise_cons] at h
      rw [insertShard]
      split
      case isTrue hle =>
        rw [List.pairwise_cons]
        refine ⟨?_, List.pairwise_cons.2 h⟩
        intro x hx
        rcases List.mem_cons.1 hx with rfl | hx
        · exact hle
        · exact Nat.le_trans hle (h.1 x hx)
      case isFalse hgt =>
        rw [List.pairwise_cons]
        refine ⟨?_, ih h.2⟩
        intro x hx
        rcases List.mem_cons.1 ((insertShard_perm s ts).mem_iff.1 hx) with rfl | hx
        · exact Nat.le_of_not_le hgt
        · exact h.1 x hx

theorem sortShards_pairwise (l : List Shard) :
    (sortShards l).Pairwise (fun a b => a.index ≤ b.index) := by
  induction l with
  | nil => exact List.Pairwise.nil
  | cons s ss ih => exact insertShard_pairwise s ih

/-- On shard lists with pairwise-distinct indexes, sorting by index is
strictly sorted. -/
theorem sortShards_pairwise_lt {l : List Shard}
    (hnd : (l.map (fun s => s.index)).Nodup) :
    (sortShards l).Pairwise (fun a b => a.index < b.index) := by
  have h1 := sortShards_pairwise l
  have hnd2 : ((sortShards l).map (fun s => s.index)).Nodup :=
    (((sortShards_perm l).map (fun s => s.index)).nodup_iff).2 hnd
  have h2 : (sortShards l).Pairwise (fun a b => a.index ≠ b.index) :=
    (List.pairwise_map).1 hnd2
  exact (h1.and h2).imp (fun hab => Nat.lt_of_le_of_ne hab.1 hab.2)

/-- C6: reassembling the shards produced by splitting a payload recovers the
payload exactly, for shards supplied in any permutation order — reassembly
sorts by the caller-supplied index (0, 1, 2), not by identifier or arrival
order. -/
theorem C6_reassemble_split_any_order (payload : List Char) (id0 id1 id2 : String)
    (l : List Shard) (hperm : l.Perm (splitIntoShards payload id0 id1 id2)) :
    reassembleShards l = payload := by
  have hsorted : (splitIntoShards payload id0 id1 id2).Pairwise
      (fun a b => a.index < b.index) := by
    simp [splitIntoShards]
  have hnd : (l.map (fun s => s.index)).Nodup := by
    refine ((hperm.map (fun s => s.index)).nodup_iff).2 ?_
    simp [splitIntoShards]
  have heq : sortShards l = splitIntoShards payload id0 id1 id2 := by
    haveI : IsAntisymm Shard (fun a b => a.index < b.index) :=
      ⟨fun a b h1 h2 => absurd h2 (Nat.lt_asymm h1)⟩
    exact List.eq_of_perm_of_sorted ((sortShards_perm l).trans hperm)
      (sortShards_pairwise_lt hnd) hsorted
  rw [reassembleShards, heq]
  simp [splitIntoShards, List.flatten]

/-- Witness for C6: a four-byte payload split into three shards, supplied in
reversed order. -/
theorem C6_reassemble_split_any_order_witness :
    ([⟨"z", [], 2⟩, ⟨"y", ['c', 'd'], 1⟩, ⟨"x", ['a', 'b'], 0⟩] : List Shard).Perm
      (splitIntoShards ['a', 'b', 'c', 'd'] "x" "y" "z") ∧
    reassembleShards
      ([⟨"z", [], 2⟩, ⟨"y", ['c', 'd'], 1⟩, ⟨"x", ['a', 'b'], 0⟩] : List Shard) =
      ['a', 'b', 'c', 'd'] :=
  ⟨by decide,
   C6_reassemble_split_any_order ['a', 'b', 'c', 'd'] "x" "y" "z" _ (by decide)⟩

/-! ## Cloud storage service (`storageService.ts`, first file)

The Supabase blob store is modelled as an association list from paths to
stored bytes; the transport outcome of each shard upload is an explicit
parameter `ok` (the forced-failure injection point of the spec's test). -/

/-- The remote blob store: path to stored bytes, newest entry first. -/
def BlobStore := List (String × List Char)

/-- Observation: the stored bytes at a path, if any. -/
def lookupBlob (store : BlobStore) (path : String) : Option (List Char) :=
  match store with
  | [] => none
  | (p, d) :: t => if path = p then some d else lookupBlob t path

/-- `supabase.storage.upload` with `upsert: true` (lines 61–66): the new
entry shadows any previous one at the same path. -/
def putBlob (store : BlobStore) (path : String) (data : List Char) : BlobStore :=
  (path, data) :: store

/-- `supabase.storage.remove(filePaths)`: drop every entry at the paths. -/
def removeBlobs (store : BlobStore) (paths : List String) : BlobStore :=
  store.filter (fun e => decide (e.1 ∉ paths))

/-- `userId/shardId`, the storage path of a shard (line 53). -/
def shardPath (userId shardId : String) : String := userId ++ "/" ++ shardId

/-- `uploadShard` (lines 45–79): on transport success the shard's bytes are
stored under its path and its id is returned; on failure, `none`. -/
def uploadShard (ok : String → Bool) (shard : Shard) (userId : String)
    (store : BlobStore) : Option (String × BlobStore) :=
  if ok shard.id then
    some (shard.id, putBlob store (shardPath userId shard.id) shard.data)
  else none

/-- `cleanupShards` (lines 183–194): remove the given shards' paths. -/
def cleanupShards (shardIds : List String) (userId : String)
    (store : BlobStore) : BlobStore :=
  removeBlobs store (shardIds.map (shardPath userId))

/-- Loop body of `uploadAllShards` (lines 84–108): upload in order,
accumulating the uploaded ids; on the first failure, clean up the already
uploaded shards and surface the failure. -/
def uploadAllShardsGo (ok : String → Bool) (userId : String) :
    List String → List Shard → BlobStore → Option (List String) × BlobStore
  | uploaded, [], store => (some uploaded, store)
  | uploaded, s :: rest, store =>
      match uploadShard ok s userId store with
      | none => (none, cleanupShards uploaded userId store)
      | some (sid, store') => uploadAllShardsGo ok userId (uploaded ++ [sid]) rest store'

/-- `uploadAllShards`: run the loop with an empty accumulator. -/
def uploadAllShards (ok : String → Bool) (shards : List Shard) (userId : String)
    (store : BlobStore) : Option (List String) × BlobStore :=
  uploadAllShardsGo ok userId [] shards store

theorem lookupBlob_removeBlobs_mem (store : BlobStore) {p : String}
    {paths : List String} (hp : p ∈ paths) :
    lookupBlob (removeBlobs store paths) p = none := by
  induction store with
  | nil => rfl
  | cons e t ih =>
      obtain ⟨q, d⟩ := e
      rw [removeBlobs, List.filter_cons]
      split
      case isTrue hkeep =>
        have hq : q ∉ paths := by simpa using hkeep
        rw [lookupBlob, if_neg (fun hpq => hq (by rw [← hpq]; exact hp))]
        exact ih
      case isFalse hdrop => exact ih

theorem lookupBlob_removeBlobs_of_none (store : BlobStore) {p : String}
    (paths : List String) (h : lookupBlob store p = none) :
    lookupBlob (removeBlobs store paths) p = none := by
  induction store with
  | nil => rfl
  | cons e t ih =>
      obtain ⟨q, d⟩ := e
      rw [lookupBlob] at h
      split at h
      · exact absurd h (by simp)
      case isFalse hpq =>
        rw [removeBlobs, List.filter_cons]
        split
        · rw [lookupBlob, if_neg hpq]
          exact ih h
        · exact ih h

theorem uploadAllShardsGo_fail (ok : String → Bool) (userId : String) :
    ∀ (rest : List Shard) (uploaded : List String) (store : BlobStore),
    (∀ s ∈ rest, lookupBlob store (shardPath userId s.id) = none ∨
       shardPath userId s.id ∈ uploaded.map (shardPath userId)) →
    (∃ s ∈ rest, ok s.id = false) →
    (uploadAllShardsGo ok userId uploaded rest store).1 = none ∧
    (∀ s : Shard,
      ((s ∈ rest ∧ lookupBlob store (shardPath userId s.id) = none) ∨
        shardPath userId s.id ∈ uploaded.map (shardPath userId)) →
      lookupBlob (uploadAllShardsGo ok userId uploaded rest store).2
        (shardPath userId s.id) = none)
  | [], uploaded, store => by
      rintro _ ⟨s, hs, -⟩
      exact absurd hs (List.not_mem_nil s)
  | s0 :: rest, uploaded, store => by
      intro hinv hfail
      rw [uploadAllShardsGo, uploadShard]
      cases hok : ok s0.id with
      | false =>
          refine ⟨rfl, ?_⟩
          intro s hs
          rcases hs with ⟨hmem, hnone⟩ | hup
          · exact lookupBlob_removeBlobs_of_none store _ hnone
          · exact lookupBlob_removeBlobs_mem store hup
      | true =>
          have hfail' : ∃ s ∈ rest, ok s.id = false := by
            rcases hfail with ⟨s, hs, hfs⟩
            rcases List.mem_cons.1 hs with rfl | hs
            · rw [hok] at hfs; exact absurd hfs (by simp)
            · exact ⟨s, hs, hfs⟩
          have hinv' : ∀ s ∈ rest,
              lookupBlob (putBlob store (shardPath userId s0.id) s0.data)
                (shardPath userId s.id) = none ∨
              shardPath userId s.id ∈
                (uploaded ++ [s0.id]).map (shardPath userId) := by
            intro s hs
            by_cases hpq : shardPath userId s.id = shardPath userId s0.id
            · right
              rw [List.map_append, List.mem_append]
              exact Or.inr (by simp [hpq])
            · rcases hinv s (List.mem_cons_of_mem s0 hs) with hnone | hup
              · left
                rw [putBlob, lookupBlob, if_neg hpq]
                exact hnone
              · right
                rw [List.map_append, List.mem_append]
                exact Or.inl hup
          obtain ⟨ih1, ih2⟩ := uploadAllShardsGo_fail ok userId rest
            (uploaded ++ [s0.id])
            (putBlob store (shardPath userId s0.id) s0.data) hinv' hfail'
          refine ⟨ih1, ?_⟩
          intro s hs
          apply ih2
          rcases hs with ⟨hmem, hnone⟩ | hup
          · rcases List.mem_cons.1 hmem with rfl | hmem
            · right
              rw [List.map_append, List.mem_append]
              exact Or.inr (by simp)
            · by_cases hpq : shardPath userId s.id = shardPath userId s0.id
              · right
                rw [List.map_append, List.mem_append]
                exact Or.inr (by simp [hpq])
              · left
                refine ⟨hmem, ?_⟩
                rw [putBlob, lookupBlob, if_neg hpq]
                exact hnone
          · right
            rw [List.map_append, List.mem_append]
            exact Or.inl hup

/-- C7: if during the sequential multi-shard upload of one document any
shard's transfer fails, every previously uploaded shard of that document is
deleted from the blob store before the failure is surfaced: the call returns
failure and — provided the document's shard paths were fresh, as the randomly
generated identifiers guarantee — no shard of the document remains stored. -/
theorem C7_failed_upload_cleans_up (ok : String → Bool) (shards : List Shard)
    (userId : String) (store : BlobStore)
    (habsent : ∀ s ∈ shards, lookupBlob store (shardPath userId s.id) = none)
    (hfail : ∃ s ∈ shards, ok s.id = false) :
    (uploadAllShards ok shards userId store).1 = none ∧
    ∀ s ∈ shards,
      lookupBlob (uploadAllShards ok shards userId store).2
        (shardPath userId s.id) = none := by
  obtain ⟨h1, h2⟩ := uploadAllShardsGo_fail ok userId shards [] store
    (fun s hs => Or.inl (habsent s hs)) hfail
  exact ⟨h1, fun s hs => h2 s (Or.inl ⟨hs, habsent s hs⟩)⟩

/-- Witness for C7: a 3-shard document whose second shard's transfer is forced
to fail leaves zero shards in the (initially empty) blob store. -/
theorem C7_failed_upload_cleans_up_witness :
    (∀ s ∈ ([⟨"a", ['x'], 0⟩, ⟨"b", ['y'], 1⟩, ⟨"c", ['z'], 2⟩] : List Shard),
       lookupBlob [] (shardPath "u" s.id) = none) ∧
    (∃ s ∈ ([⟨"a", ['x'], 0⟩, ⟨"b", ['y'], 1⟩, ⟨"c", ['z'], 2⟩] : List Shard),
       (fun i => !(i == "b")) s.id = false) ∧
    (uploadAllShards (fun i => !(i == "b"))
       [⟨"a", ['x'], 0⟩, ⟨"b", ['y'], 1⟩, ⟨"c", ['z'], 2⟩] "u" []).1 = none ∧
    ∀ s ∈ ([⟨"a", ['x'], 0⟩, ⟨"b", ['y'], 1⟩, ⟨"c", ['z'], 2⟩] : List Shard),
      lookupBlob (uploadAllShards (fun i => !(i == "b"))
        [⟨"a", ['x'], 0⟩, ⟨"b", ['y'], 1⟩, ⟨"c", ['z'], 2⟩] "u" []).2
        (shardPath "u" s.id) = none :=
  ⟨by decide, by decide,
   C7_failed_upload_cleans_up (fun i => !(i == "b"))
     [⟨"a", ['x'], 0⟩, ⟨"b", ['y'], 1⟩, ⟨"c", ['z'], 2⟩] "u" []
     (by decide) (by decide)⟩
